import Mathlib

/-!
Verification development for `scripts/generate_icon.py` of the
`the-tavern-at-the-spillway` repository: a one-shot generator for a macOS
app icon (squircle mask, light/dark compositing, legacy `.appiconset`
output and modern `.icon` bundle output).

The Python source is shallowly embedded as follows:

* images are total pixel functions together with their declared dimensions
  (`GrayImage`, `RGBAImage`);
* the floating-point geometry of `create_squircle_mask` is idealised over
  `ℝ` (`math.cos`/`math.sin`/`**` become `Real.cos`/`Real.sin`/`rpow`);
  PIL's `draw.polygon(points, fill=255)` on this convex vertex list is
  modelled as membership in the convex hull of the vertex set (the filled
  convex polygon), 255 inside and 0 outside;
* PIL font objects are abstracted to their interface used by the script
  (`textbbox` metrics and glyph coverage for `draw.text`), and
  `ImageFont.truetype` is a resolver parameter `String → ℤ → Option Font`
  (path and pixel size in, font out, `none` for `OSError`/`IOError`);
* filesystem activity is a trace of operations (`FsOp`) folded over a
  `Finset String` of existing file names, with an explicit failure oracle
  for error-propagation claims (`runOps`).
-/

set_option linter.unusedVariables false
set_option maxHeartbeats 1000000

namespace TavernIcon

/-! ## Images -/

/-- A PIL `"L"`-mode (8-bit grayscale) image: declared dimensions plus a
total pixel function (`getpixel`). -/
structure GrayImage where
  width : ℕ
  height : ℕ
  pixel : ℕ → ℕ → ℕ

/-- One RGBA pixel value; channels are 8-bit in the source. -/
structure RGBA where
  r : ℕ
  g : ℕ
  b : ℕ
  a : ℕ
deriving DecidableEq

/-- A PIL `"RGBA"`-mode image: declared dimensions plus a total pixel
function. -/
structure RGBAImage where
  width : ℕ
  height : ℕ
  pixel : ℕ → ℕ → RGBA

/-! ## Colors (from `create_icon`, lines 52-53) -/

/-- `orange = (255, 149, 0)` — macOS system orange. -/
def orange : ℕ × ℕ × ℕ := (255, 149, 0)

/-- `black = (0, 0, 0)`. -/
def black : ℕ × ℕ × ℕ := (0, 0, 0)

/-! ## Fonts (abstraction of the PIL font interface used by the script) -/

/-- Abstraction of a PIL font object, reduced to the two capabilities the
script uses: `bbox text = (left, top, right, bottom)` models
`draw.textbbox((0, 0), text, font=font)`, and `covers text dx dy` models
whether `draw.text` paints the pixel at offset `(dx, dy)` from the text
anchor when rendering `text`. -/
structure Font where
  bbox : String → ℤ × ℤ × ℤ × ℤ
  covers : String → ℤ → ℤ → Bool

/-- Modelled from the spec: `ImageFont.load_default()`, the minimal
built-in fallback font (its concrete metrics are internal to PIL; the
script only requires that it exists and renders non-fatally). -/
def load_default : Font where
  bbox := fun _ => (0, 0, 0, 0)
  covers := fun _ _ _ => false

/-- The ordered candidate font paths (`font_paths`, lines 83-87). -/
def font_paths : List String :=
  ["/Library/Fonts/Bradley Hand Bold.ttf",
   "/System/Library/Fonts/Supplemental/Bradley Hand Bold.ttf",
   "/System/Library/Fonts/Bradley Hand Bold.ttf"]

/-- The `for font_path in font_paths: try ... except ... continue` loop
(lines 89-95): returns the first resolvable candidate together with the
path that resolved, or `none` when every candidate raises. -/
def tryFonts (resolve : String → ℤ → Option Font) (font_size : ℤ) :
    List String → Option (Font × String)
  | [] => none
  | p :: rest =>
    match resolve p font_size with
    | some f => some (f, p)
    | none => tryFonts resolve font_size rest

/-- Font selection including the fallback branch (lines 89-99): the first
resolvable candidate is used (and `Using font: ...` is printed), otherwise
the built-in default font is used and a warning is printed. The returned
list is the stdout log of this step. -/
def selectFont (resolve : String → ℤ → Option Font) (font_size : ℤ) :
    Font × List String :=
  match tryFonts resolve font_size font_paths with
  | some (f, p) => (f, ["Using font: " ++ p])
  | none => (load_default, ["Warning: Bradley Hand font not found, using default"])

/-- Text placement (lines 104-110): centering from the measured bounding
box, with the vertical baseline adjustment `- bbox[1]`. Python `//` is
floor division, hence `Int.fdiv`. Returns the anchor `(x, y)` passed to
`draw.text`. -/
def textLayout (font : Font) (size : ℕ) : ℤ × ℤ :=
  let bbox := font.bbox "JT"
  let text_width := bbox.2.2.1 - bbox.1
  let text_height := bbox.2.2.2 - bbox.2.1
  (Int.fdiv ((size : ℤ) - text_width) 2,
   Int.fdiv ((size : ℤ) - text_height) 2 - bbox.2.1)

/-! ## Legacy `.appiconset` data (lines 119-130, 190-221) -/

/-- `ICON_SIZES`: the fixed macOS `(catalog_size, scale, actual_pixels)`
table (lines 119-130). -/
def ICON_SIZES : List (String × String × ℕ) :=
  [("16x16", "1x", 16),
   ("16x16", "2x", 32),
   ("32x32", "1x", 32),
   ("32x32", "2x", 64),
   ("128x128", "1x", 128),
   ("128x128", "2x", 256),
   ("256x256", "1x", 256),
   ("256x256", "2x", 512),
   ("512x512", "1x", 512),
   ("512x512", "2x", 1024)]

/-- One entry of the `images` list written to `Contents.json`
(lines 208-213). -/
structure ManifestEntry where
  filename : String
  idiom : String
  scale : String
  size : String
deriving DecidableEq

/-- The generated icon file names, `f"AppIcon-{size_str}@{scale}.png"`
(line 203), in generation order. -/
def legacyFilenames : List String :=
  ICON_SIZES.map (fun t => "AppIcon-" ++ t.1 ++ "@" ++ t.2.1 ++ ".png")

/-- The `images` list of the legacy `Contents.json` manifest, one entry
appended per `ICON_SIZES` row (lines 202-213). -/
def legacyManifest : List ManifestEntry :=
  ICON_SIZES.map (fun t =>
    { filename := "AppIcon-" ++ t.1 ++ "@" ++ t.2.1 ++ ".png"
      idiom := "mac"
      scale := t.2.1
      size := t.1 })

/-- The glob pattern `AppIcon-*.png` of line 195, on directory-entry
names: `*` matches any (possibly empty) character run, so a name matches
iff it has literal head `AppIcon-` and literal tail `.png` (the two pieces
cannot overlap: an overlap would force one character to be both `-` and a
character of `.png`). Stated over `String.data` so that the predicate is
structurally computable. -/
def matchesIconGlob (s : String) : Bool :=
  "AppIcon-".data.isPrefixOf s.data && ".png".data.isSuffixOf s.data

/-! ## Filesystem traces -/

/-- One filesystem side effect performed by the script: `Path.mkdir`,
`Path.unlink`, or a content write (`Image.save` / `write_text`). Paths of
the legacy run are names inside `icon_dir`; paths of the bundle run are
relative to the bundle parent. -/
inductive FsOp where
  | mkdir : String → FsOp
  | remove : String → FsOp
  | write : String → FsOp
deriving DecidableEq

/-- Effect of one operation on the set of existing file names (`mkdir`
touches no file entry; `remove` unlinks; `write` creates or overwrites). -/
def applyOp (o : FsOp) (s : Finset String) : Finset String :=
  match o with
  | FsOp.mkdir _ => s
  | FsOp.remove p => s.erase p
  | FsOp.write p => insert p s

/-- Folding a whole trace over a filesystem state. -/
def runFold (ops : List FsOp) (s : Finset String) : Finset String :=
  ops.foldl (fun st o => applyOp o st) s

/-- The file name targeted by a write, if the operation is a write. -/
def writeTarget : FsOp → Option String
  | FsOp.write p => some p
  | _ => none

/-- All file names written by a trace, in order. -/
def writesOf (ops : List FsOp) : List String :=
  ops.filterMap writeTarget

/-- Names written by `generate_legacy_appiconset`, in program order: the
ten icons of line 205, then `Contents.json` of line 220. -/
def legacyWriteNames : List String :=
  legacyFilenames ++ ["Contents.json"]

/-- The filesystem trace of `generate_legacy_appiconset` (lines 190-221)
given the pre-existing directory entries: `mkdir` of the output directory,
then one `unlink` per pre-existing entry matching `AppIcon-*.png`
(lines 194-197), then the icon writes and the manifest write. -/
def legacyOps (existing : List String) : List FsOp :=
  (FsOp.mkdir "." :: (existing.filter matchesIconGlob).map FsOp.remove)
    ++ legacyWriteNames.map FsOp.write

/-- The directory state after a (failure-free) legacy run starting from
`initial`; the glob of line 195 enumerates the matching existing names. -/
def legacyRun (initial : Finset String) : Finset String :=
  runFold (legacyOps (initial.sort (· ≤ ·))) initial

/-- The filesystem trace of `create_icon_bundle` (lines 133-187), in
program order: the two `mkdir`s, the two PNG saves, the descriptor
write. -/
def bundleOps : List FsOp :=
  [FsOp.mkdir "AppIcon.icon", FsOp.mkdir "AppIcon.icon/Assets"]
    ++ [FsOp.write "AppIcon.icon/Assets/icon-light.png",
        FsOp.write "AppIcon.icon/Assets/icon-dark.png",
        FsOp.write "AppIcon.icon/icon.json"]

/-- The image files (PNG writes) produced by the bundle run. -/
def bundlePngWrites : List String :=
  (writesOf bundleOps).filter (fun p => ".png".data.isSuffixOf p.data)

/-! ## The `icon.json` descriptor (lines 154-186) -/

/-- One element of a layer's `opacity-specializations` list:
an optional `appearance` condition and a `value`. -/
structure OpacitySpec where
  appearance : Option String
  value : ℕ
deriving DecidableEq

/-- One element of a group's `layers` list. -/
structure IconLayer where
  image_name : String
  name : String
  opacity_specializations : List OpacitySpec
deriving DecidableEq

/-- One element of the descriptor's `groups` list, with its `shadow` and
`translucency` attributes. -/
structure IconGroup where
  layers : List IconLayer
  shadow_kind : String
  shadow_opacity : ℚ
  translucency_enabled : Bool
  translucency_value : ℚ
deriving DecidableEq

/-- The whole `icon.json` value (`groups` plus `supported-platforms`). -/
structure IconJson where
  groups : List IconGroup
  circles : List String
  squares : String
deriving DecidableEq

/-- The `icon_json` literal of lines 155-184. -/
def icon_json : IconJson where
  groups :=
    [{ layers :=
        [{ image_name := "icon-dark.png"
           name := "icon-dark"
           opacity_specializations :=
            [{ appearance := none, value := 0 },
             { appearance := some "dark", value := 1 }] },
         { image_name := "icon-light.png"
           name := "icon-light"
           opacity_specializations :=
            [{ appearance := some "dark", value := 0 }] }]
       shadow_kind := "neutral"
       shadow_opacity := 1/2
       translucency_enabled := true
       translucency_value := 1/2 }]
  circles := ["watchOS"]
  squares := "shared"

/-- Modelled from the spec: the platform's resolution of
`opacity-specializations` for a given appearance (`none` = default).
An explicit specialization for the appearance wins; otherwise the
unconditional (default) specialization applies; otherwise the layer is
implicitly at opacity 1 — the source records this convention in its own
comment, line 172: `Default (light mode) is implicitly opacity 1`. -/
def effectiveOpacity (l : IconLayer) (appearance : Option String) : ℕ :=
  match l.opacity_specializations.find? (fun s => s.appearance == appearance) with
  | some s => s.value
  | none =>
    match l.opacity_specializations.find? (fun s => s.appearance == none) with
    | some s => s.value
    | none => 1

/-! ## Squircle geometry (`create_squircle_mask`, lines 17-40) -/

/-- `half = size // 2` (line 24), as a real number. -/
noncomputable def halfR (size : ℕ) : ℝ := ((size / 2 : ℕ) : ℝ)

/-- The `i`-th polygon vertex of lines 30-37, for `theta = 2*pi*i/steps`
with `steps = 360`: the superellipse boundary point
`half + half*0.9*(abs(cos θ))**(2/n) * (1 if cos θ >= 0 else -1)` (and the
analogous `sin` expression), with shape exponent `n = 4` (line 23), so the
exponent is `2/4`. -/
noncomputable def squircleVertex (size : ℕ) (i : ℕ) : ℝ × ℝ :=
  (halfR size + halfR size * 0.9 *
      |Real.cos (2 * Real.pi * (i : ℝ) / 360)| ^ ((2 : ℝ) / 4) *
      (if 0 ≤ Real.cos (2 * Real.pi * (i : ℝ) / 360) then 1 else -1),
   halfR size + halfR size * 0.9 *
      |Real.sin (2 * Real.pi * (i : ℝ) / 360)| ^ ((2 : ℝ) / 4) *
      (if 0 ≤ Real.sin (2 * Real.pi * (i : ℝ) / 360) then 1 else -1))

/-- The vertex set `points` built by `for i in range(steps)` with
`steps = 360` (lines 28-37). -/
def squircleVertexSet (size : ℕ) : Set (ℝ × ℝ) :=
  {p | ∃ i, i < 360 ∧ squircleVertex size i = p}

open Classical in
/-- `create_squircle_mask(size, radius_factor)` (lines 17-40): an `L`-mode
`size × size` image, initialised to 0, into which
`draw.polygon(points, fill=255)` rasterises the filled polygon. The vertex
list is in convex position (all vertices lie on the convex superellipse
`|u|⁴ + |v|⁴ = (0.9·half)⁴` centred at `(half, half)`, in angular order),
so the filled polygon is the convex hull of the vertex set; a pixel is 255
iff its grid point lies in that hull. The `radius = int(size * radius_factor)`
of line 25 is computed and then never used, exactly as in the source. -/
noncomputable def create_squircle_maskWith (size : ℕ) (radius_factor : ℝ) : GrayImage :=
  let radius : ℤ := ⌊(size : ℝ) * radius_factor⌋
  { width := size
    height := size
    pixel := fun x y =>
      if ((x : ℝ), (y : ℝ)) ∈ convexHull ℝ (squircleVertexSet size) then 255 else 0 }

/-- `create_squircle_mask(size)` with the default `radius_factor = 0.22`
(line 17) — the only way the script ever calls it (line 63). -/
noncomputable def create_squircle_mask (size : ℕ) : GrayImage :=
  create_squircle_maskWith size 0.22

/-- Definition following the spec's own words (§4.1), for comparison with
the source-derived `squircleVertex`: a boundary point
`x = center + scale·sign(cos θ)·|cos θ|^(2/n)`,
`y = center + scale·sign(sin θ)·|sin θ|^(2/n)`. -/
noncomputable def specBoundaryPoint (center scale n theta : ℝ) : ℝ × ℝ :=
  (center + scale * Real.sign (Real.cos theta) * |Real.cos theta| ^ ((2 : ℝ) / n),
   center + scale * Real.sign (Real.sin theta) * |Real.sin theta| ^ ((2 : ℝ) / n))

/-! ## The compositor (`create_icon`, lines 43-115) -/

/-- The background-fill step of lines 66-73: on a fresh transparent
canvas, every pixel whose squircle-mask opacity exceeds 128 is painted
fully opaque in the background color; every other pixel stays fully
transparent. -/
noncomputable def backgroundFill (size : ℕ) (bg_color : ℕ × ℕ × ℕ) :
    ℕ → ℕ → RGBA := fun x y =>
  if 128 < (create_squircle_mask size).pixel x y then
    { r := bg_color.1, g := bg_color.2.1, b := bg_color.2.2, a := 255 }
  else
    { r := 0, g := 0, b := 0, a := 0 }

/-- `create_icon(size, dark_mode)` (lines 43-115), against a font
resolver standing for `ImageFont.truetype`: colors are chosen by
`dark_mode` (lines 55-56), the squircle background is filled (lines
63-75), the font is selected with fallback (lines 79-99,
`font_size = int(size * 0.45)`), and `JT` is drawn centred on top in the
text color (lines 101-113). Returns the image and the stdout log of the
font step. -/
noncomputable def create_icon (size : ℕ) (dark_mode : Bool)
    (resolve : String → ℤ → Option Font) : RGBAImage × List String :=
  let bg_color := if dark_mode then black else orange
  let text_color := if dark_mode then orange else black
  let background := backgroundFill size bg_color
  let font_size : ℤ := ⌊(size : ℝ) * 0.45⌋
  let fl := selectFont resolve font_size
  let font := fl.1
  let anchor := textLayout font size
  ({ width := size
     height := size
     pixel := fun px py =>
       if font.covers "JT" ((px : ℤ) - anchor.1) ((py : ℤ) - anchor.2) then
         { r := text_color.1, g := text_color.2.1, b := text_color.2.2, a := 255 }
       else background px py },
   fl.2)

/-! ## Error propagation (runs with a failure oracle) -/

/-- Running a trace against a failure oracle: operations execute in
order; the first failing operation aborts the run immediately (the Python
exception propagates — there is no retry and no rollback), returning the
failing operation together with the filesystem state at that moment. -/
def runOps (fail : FsOp → Bool) :
    List FsOp → Finset String → Except (FsOp × Finset String) (Finset String)
  | [], s => Except.ok s
  | o :: rest, s =>
    if fail o then Except.error (o, s) else runOps fail rest (applyOp o s)

/-! ## Geometry helper lemmas -/

/-- The vertex at `i = 0` (`theta = 0`): the rightmost point
`(half + 0.9·half, half)`. -/
lemma squircleVertex_zero (S : ℕ) :
    squircleVertex S 0 = (halfR S + halfR S * 0.9, halfR S) := by
  have h1 : 2 * Real.pi * ((0 : ℕ) : ℝ) / 360 = 0 := by norm_num
  simp only [squircleVertex, h1, Real.cos_zero, Real.sin_zero, abs_one, abs_zero,
    Real.one_rpow, Real.zero_rpow (by norm_num : ((2 : ℝ) / 4) ≠ 0)]
  norm_num

/-- The vertex at `i = 180` (`theta = π`): the leftmost point
`(half - 0.9·half, half)`. -/
lemma squircleVertex_180 (S : ℕ) :
    squircleVertex S 180 = (halfR S - halfR S * 0.9, halfR S) := by
  have h1 : 2 * Real.pi * ((180 : ℕ) : ℝ) / 360 = Real.pi := by
    push_cast
    ring
  simp only [squircleVertex, h1, Real.cos_pi, Real.sin_pi, abs_neg, abs_one, abs_zero,
    Real.one_rpow, Real.zero_rpow (by norm_num : ((2 : ℝ) / 4) ≠ 0)]
  rw [if_neg (by norm_num : ¬ (0 : ℝ) ≤ -1), if_pos le_rfl]
  simp only [Prod.mk.injEq]
  constructor <;> ring

/-- The canvas centre `(half, half)` is the midpoint of the vertices at
`i = 0` and `i = 180`, hence lies in the filled polygon. -/
lemma center_mem_hull (S : ℕ) :
    ((halfR S, halfR S) : ℝ × ℝ) ∈ convexHull ℝ (squircleVertexSet S) := by
  have h0 : squircleVertex S 0 ∈ squircleVertexSet S := ⟨0, by norm_num, rfl⟩
  have h180 : squircleVertex S 180 ∈ squircleVertexSet S := ⟨180, by norm_num, rfl⟩
  have m0 := subset_convexHull ℝ (squircleVertexSet S) h0
  have m180 := subset_convexHull ℝ (squircleVertexSet S) h180
  have hcomb := (convex_convexHull ℝ (squircleVertexSet S)) m0 m180
    (by norm_num : (0 : ℝ) ≤ 1 / 2) (by norm_num : (0 : ℝ) ≤ 1 / 2)
    (by norm_num : (1 / 2 : ℝ) + 1 / 2 = 1)
  have heq : (1 / 2 : ℝ) • squircleVertex S 0 + (1 / 2 : ℝ) • squircleVertex S 180
      = ((halfR S, halfR S) : ℝ × ℝ) := by
    rw [squircleVertex_zero, squircleVertex_180]
    simp only [Prod.smul_mk, Prod.mk_add_mk, smul_eq_mul, Prod.mk.injEq]
    constructor <;> ring
  rwa [heq] at hcomb

/-- Fourth power collapses the `2/4`-rpow of an absolute value:
`(|t| ^ (2/4))⁴ = t²`. -/
lemma abs_rpow_pow_four (t : ℝ) : (|t| ^ ((2 : ℝ) / 4)) ^ (4 : ℕ) = t ^ (2 : ℕ) := by
  rw [← Real.rpow_natCast (|t| ^ ((2 : ℝ) / 4)) 4, ← Real.rpow_mul (abs_nonneg t)]
  norm_num

/-- The code's sign factor is ±1, so its fourth power is 1. -/
lemma sign_pow_four (t : ℝ) : ((if 0 ≤ t then (1 : ℝ) else -1)) ^ (4 : ℕ) = 1 := by
  split_ifs <;> norm_num

/-- Every polygon vertex lies exactly on the superellipse
`(x - half)⁴ + (y - half)⁴ = (0.9·half)⁴`. -/
lemma vertex_dist (S i : ℕ) :
    ((squircleVertex S i).1 - halfR S) ^ (4 : ℕ)
      + ((squircleVertex S i).2 - halfR S) ^ (4 : ℕ)
      = (halfR S * 0.9) ^ (4 : ℕ) := by
  have hx : ((squircleVertex S i).1 - halfR S) ^ (4 : ℕ)
      = (halfR S * 0.9) ^ (4 : ℕ) * Real.cos (2 * Real.pi * (i : ℝ) / 360) ^ (2 : ℕ) := by
    show (halfR S + halfR S * 0.9 *
        |Real.cos (2 * Real.pi * (i : ℝ) / 360)| ^ ((2 : ℝ) / 4) *
        (if 0 ≤ Real.cos (2 * Real.pi * (i : ℝ) / 360) then 1 else -1) - halfR S) ^ (4 : ℕ)
      = (halfR S * 0.9) ^ (4 : ℕ) * Real.cos (2 * Real.pi * (i : ℝ) / 360) ^ (2 : ℕ)
    have e1 : halfR S + halfR S * 0.9 *
        |Real.cos (2 * Real.pi * (i : ℝ) / 360)| ^ ((2 : ℝ) / 4) *
        (if 0 ≤ Real.cos (2 * Real.pi * (i : ℝ) / 360) then 1 else -1) - halfR S
        = halfR S * 0.9 *
          |Real.cos (2 * Real.pi * (i : ℝ) / 360)| ^ ((2 : ℝ) / 4) *
          (if 0 ≤ Real.cos (2 * Real.pi * (i : ℝ) / 360) then 1 else -1) := by ring
    rw [e1, mul_pow, mul_pow, abs_rpow_pow_four, sign_pow_four, mul_one]
  have hy : ((squircleVertex S i).2 - halfR S) ^ (4 : ℕ)
      = (halfR S * 0.9) ^ (4 : ℕ) * Real.sin (2 * Real.pi * (i : ℝ) / 360) ^ (2 : ℕ) := by
    show (halfR S + halfR S * 0.9 *
        |Real.sin (2 * Real.pi * (i : ℝ) / 360)| ^ ((2 : ℝ) / 4) *
        (if 0 ≤ Real.sin (2 * Real.pi * (i : ℝ) / 360) then 1 else -1) - halfR S) ^ (4 : ℕ)
      = (halfR S * 0.9) ^ (4 : ℕ) * Real.sin (2 * Real.pi * (i : ℝ) / 360) ^ (2 : ℕ)
    have e1 : halfR S + halfR S * 0.9 *
        |Real.sin (2 * Real.pi * (i : ℝ) / 360)| ^ ((2 : ℝ) / 4) *
        (if 0 ≤ Real.sin (2 * Real.pi * (i : ℝ) / 360) then 1 else -1) - halfR S
        = halfR S * 0.9 *
          |Real.sin (2 * Real.pi * (i : ℝ) / 360)| ^ ((2 : ℝ) / 4) *
          (if 0 ≤ Real.sin (2 * Real.pi * (i : ℝ) / 360) then 1 else -1) := by ring
    rw [e1, mul_pow, mul_pow, abs_rpow_pow_four, sign_pow_four, mul_one]
  rw [hx, hy, ← mul_add]
  rw [Real.cos_sq_add_sin_sq, mul_one]

/-- The closed superellipse region is convex: it is a sublevel set of the
convex function `p ↦ (p.1 - c)⁴ + (p.2 - c)⁴`. -/
lemma convex_superellipse (c r : ℝ) :
    Convex ℝ {p : ℝ × ℝ | (p.1 - c) ^ (4 : ℕ) + (p.2 - c) ^ (4 : ℕ) ≤ r} := by
  intro p hp q hq a b ha hb hab
  simp only [Set.mem_setOf_eq] at hp hq ⊢
  have hcx : ConvexOn ℝ Set.univ (fun x : ℝ => x ^ (4 : ℕ)) :=
    Even.convexOn_pow (by decide)
  have h1 := hcx.2 (Set.mem_univ (p.1 - c)) (Set.mem_univ (q.1 - c)) ha hb hab
  have h2 := hcx.2 (Set.mem_univ (p.2 - c)) (Set.mem_univ (q.2 - c)) ha hb hab
  simp only [smul_eq_mul] at h1 h2
  have e1 : (a • p + b • q).1 - c = a * (p.1 - c) + b * (q.1 - c) := by
    simp only [Prod.fst_add, Prod.smul_fst, smul_eq_mul]
    linear_combination c * hab
  have e2 : (a • p + b • q).2 - c = a * (p.2 - c) + b * (q.2 - c) := by
    simp only [Prod.snd_add, Prod.smul_snd, smul_eq_mul]
    linear_combination c * hab
  rw [e1, e2]
  have hpr : a * ((p.1 - c) ^ (4 : ℕ) + (p.2 - c) ^ (4 : ℕ)) ≤ a * r :=
    mul_le_mul_of_nonneg_left hp ha
  have hqr : b * ((q.1 - c) ^ (4 : ℕ) + (q.2 - c) ^ (4 : ℕ)) ≤ b * r :=
    mul_le_mul_of_nonneg_left hq hb
  have habr : a * r + b * r = r := by
    rw [← add_mul, hab, one_mul]
  nlinarith [h1, h2, hpr, hqr]

/-- The filled polygon is contained in the closed superellipse region. -/
lemma hull_subset_superellipse (S : ℕ) :
    convexHull ℝ (squircleVertexSet S) ⊆
      {p : ℝ × ℝ | (p.1 - halfR S) ^ (4 : ℕ) + (p.2 - halfR S) ^ (4 : ℕ)
        ≤ (halfR S * 0.9) ^ (4 : ℕ)} := by
  apply convexHull_min
  · rintro p ⟨i, hi, rfl⟩
    exact le_of_eq (vertex_dist S i)
  · exact convex_superellipse _ _

/-- For canvases with `half ≥ 1`, the corner `(0, 0)` lies strictly
outside the superellipse region, hence outside the filled polygon. -/
lemma corner_not_mem (S : ℕ) (hc : (1 : ℝ) ≤ halfR S) :
    (((0 : ℝ), (0 : ℝ)) : ℝ × ℝ) ∉ convexHull ℝ (squircleVertexSet S) := by
  intro hmem
  have h := hull_subset_superellipse S hmem
  simp only [Set.mem_setOf_eq] at h
  have h2 : (1 : ℝ) ≤ halfR S ^ (2 : ℕ) := by nlinarith [hc]
  have h4 : (1 : ℝ) ≤ halfR S ^ (4 : ℕ) := by nlinarith [h2]
  nlinarith [h, h4]

/-- The mask's centre pixel `(size // 2, size // 2)` is fully opaque, for
every canvas size (the centre is always in the hull, even in the
degenerate `size = 1` case where all vertices coincide with it). -/
lemma mask_center_pixel (S : ℕ) :
    (create_squircle_mask S).pixel (S / 2) (S / 2) = 255 := by
  have hmem : (((S / 2 : ℕ) : ℝ), ((S / 2 : ℕ) : ℝ)) ∈
      convexHull ℝ (squircleVertexSet S) := center_mem_hull S
  simp only [create_squircle_mask, create_squircle_maskWith]
  rw [if_pos hmem]

/-- The mask's corner pixel `(0, 0)` is fully transparent whenever
`size ≥ 2`. -/
lemma mask_corner_pixel (S : ℕ) (hS : 2 ≤ S) :
    (create_squircle_mask S).pixel 0 0 = 0 := by
  have hdiv : 1 ≤ S / 2 := (Nat.le_div_iff_mul_le (by norm_num)).2 (by omega)
  have hc : (1 : ℝ) ≤ halfR S := by
    unfold halfR
    exact_mod_cast hdiv
  have hnot := corner_not_mem S hc
  simp only [create_squircle_mask, create_squircle_maskWith]
  rw [if_neg (by simpa using hnot)]

/-! ## List and filesystem helper lemmas -/

/-- A `remove`-only trace never yields a write target. -/
lemma filterMap_writeTarget_removes (l : List String) :
    List.filterMap (writeTarget ∘ FsOp.remove) l = [] := by
  induction l with
  | nil => simp
  | cons a t ih => simp [writeTarget, ih]

/-- A `write`-only trace writes exactly its names, in order. -/
lemma filterMap_writeTarget_writes (l : List String) :
    List.filterMap (writeTarget ∘ FsOp.write) l = l := by
  induction l with
  | nil => simp
  | cons a t ih => simp [writeTarget, ih]

/-- The legacy run writes exactly the ten icon files and then
`Contents.json`, regardless of what existed before. -/
lemma writesOf_legacyOps (existing : List String) :
    writesOf (legacyOps existing) = legacyWriteNames := by
  simp [writesOf, legacyOps, List.filterMap_append, List.filterMap_cons,
    filterMap_writeTarget_removes, filterMap_writeTarget_writes, writeTarget]

/-- Folding a trace splits over list append. -/
lemma runFold_append (l₁ l₂ : List FsOp) (s : Finset String) :
    runFold (l₁ ++ l₂) s = runFold l₂ (runFold l₁ s) := by
  simp [runFold, List.foldl_append]

/-- Membership after a `remove`-only trace: still present and not
removed. -/
lemma mem_runFold_removes (l : List String) (s : Finset String) (p : String) :
    p ∈ runFold (l.map FsOp.remove) s ↔ p ∈ s ∧ p ∉ l := by
  induction l generalizing s with
  | nil => simp [runFold]
  | cons a t ih =>
    have step : runFold ((a :: t).map FsOp.remove) s
        = runFold (t.map FsOp.remove) (s.erase a) := by
      simp [runFold, applyOp]
    rw [step, ih]
    simp only [Finset.mem_erase, List.mem_cons]
    tauto

/-- Membership after a `write`-only trace: present before or written. -/
lemma mem_runFold_writes (l : List String) (s : Finset String) (p : String) :
    p ∈ runFold (l.map FsOp.write) s ↔ p ∈ s ∨ p ∈ l := by
  induction l generalizing s with
  | nil => simp [runFold]
  | cons a t ih =>
    have step : runFold ((a :: t).map FsOp.write) s
        = runFold (t.map FsOp.write) (insert a s) := by
      simp [runFold, applyOp]
    rw [step, ih]
    simp only [Finset.mem_insert, List.mem_cons]
    tauto

/-- Characterisation of the directory after a legacy run: a name is
present iff it survived the glob-deletion or was (re)written. -/
lemma mem_legacyRun (initial : Finset String) (p : String) :
    p ∈ legacyRun initial ↔
      (p ∈ initial ∧ ¬ matchesIconGlob p = true) ∨ p ∈ legacyWriteNames := by
  unfold legacyRun legacyOps
  rw [runFold_append]
  have step : runFold
      (FsOp.mkdir "." :: ((initial.sort (· ≤ ·)).filter matchesIconGlob).map FsOp.remove)
      initial
      = runFold (((initial.sort (· ≤ ·)).filter matchesIconGlob).map FsOp.remove)
        initial := by
    simp [runFold, applyOp]
  rw [step, mem_runFold_writes, mem_runFold_removes]
  have hfil : p ∈ (initial.sort (· ≤ ·)).filter matchesIconGlob ↔
      p ∈ initial ∧ matchesIconGlob p = true := by
    rw [List.mem_filter, Finset.mem_sort]
  rw [hfil]
  tauto

/-- Trace-error characterisation: a failed run stops at the first failing
operation `k`; every earlier operation succeeded and the returned state is
the fold of the strict prefix. -/
lemma runOps_error_spec (fail : FsOp → Bool) :
    ∀ (ops : List FsOp) (s : Finset String) (op : FsOp) (sf : Finset String),
      runOps fail ops s = Except.error (op, sf) →
      fail op = true ∧ ∃ k, ops.get? k = some op ∧
        (∀ j, j < k → ∃ o, ops.get? j = some o ∧ fail o = false) ∧
        sf = runFold (ops.take k) s := by
  intro ops
  induction ops with
  | nil =>
    intro s op sf h
    simp [runOps] at h
  | cons o rest ih =>
    intro s op sf h
    by_cases hf : fail o = true
    · rw [runOps, if_pos hf] at h
      simp only [Except.error.injEq, Prod.mk.injEq] at h
      obtain ⟨rfl, rfl⟩ := h
      refine ⟨hf, 0, by simp, ?_, by simp [runFold]⟩
      intro j hj
      omega
    · rw [runOps, if_neg hf] at h
      obtain ⟨hop, k, hk, hprev, hsf⟩ := ih (applyOp o s) op sf h
      refine ⟨hop, k + 1, by simpa using hk, ?_, ?_⟩
      · intro j hj
        cases j with
        | zero =>
          exact ⟨o, by simp, by simpa using hf⟩
        | succ j =>
          obtain ⟨o2, ho2, ho2f⟩ := hprev j (by omega)
          exact ⟨o2, by simpa using ho2, ho2f⟩
      · rw [hsf]
        simp [runFold]

/-- In a trace without removals, every name written (or already present)
is present after the fold. -/
lemma mem_runFold_no_remove (l : List FsOp) (hl : ∀ q, FsOp.remove q ∉ l)
    (s : Finset String) (p : String)
    (h : FsOp.write p ∈ l ∨ p ∈ s) : p ∈ runFold l s := by
  induction l generalizing s with
  | nil =>
    rcases h with h | h
    · simp at h
    · simpa [runFold] using h
  | cons o rest ih =>
    have hrest : ∀ q, FsOp.remove q ∉ rest := fun q hq => hl q (List.mem_cons_of_mem _ hq)
    have step : runFold (o :: rest) s = runFold rest (applyOp o s) := by
      simp [runFold]
    rw [step]
    apply ih hrest
    rcases h with hw | hs
    · rcases List.mem_cons.1 hw with heq | hmem
      · right
        rw [← heq]
        simp [applyOp]
      · left
        exact hmem
    · right
      cases o with
      | mkdir q => simpa [applyOp] using hs
      | remove q => exact absurd (List.mem_cons_self _ _) (hl q)
      | write q => simp [applyOp, hs]

/-- For a trace of shape `A ++ W` where `A` contains no write and `W`
contains no remove (all removals precede all writes), every write landing
in any prefix is still present after folding that prefix: nothing written
is later removed. -/
lemma writes_take_persist (A W : List FsOp)
    (hA : ∀ p, FsOp.write p ∉ A) (hW : ∀ q, FsOp.remove q ∉ W)
    (k : ℕ) (s : Finset String) (p : String)
    (hp : FsOp.write p ∈ (A ++ W).take k) :
    p ∈ runFold ((A ++ W).take k) s := by
  rw [List.take_append_eq_append_take] at hp ⊢
  rw [runFold_append]
  apply mem_runFold_no_remove (W.take (k - A.length))
    (fun q hq => hW q (List.take_subset _ _ hq))
  rcases List.mem_append.1 hp with h1 | h2
  · exact absurd (List.take_subset _ _ h1) (hA p)
  · left
    exact h2

/-- No element of the pre-write segment of a legacy trace is a write. -/
lemma legacy_head_no_write (existing : List String) (p : String) :
    FsOp.write p ∉
      FsOp.mkdir "." :: (existing.filter matchesIconGlob).map FsOp.remove := by
  intro h
  rcases List.mem_cons.1 h with h | h
  · simp at h
  · obtain ⟨a, _, ha⟩ := List.mem_map.1 h
    simp at ha

/-- No element of a `write`-mapped list is a remove. -/
lemma map_write_no_remove (l : List String) (q : String) :
    FsOp.remove q ∉ l.map FsOp.write := by
  intro h
  obtain ⟨a, _, ha⟩ := List.mem_map.1 h
  simp at ha

/-- No element of the bundle trace's head (the two `mkdir`s) is a
write. -/
lemma bundle_head_no_write (p : String) :
    FsOp.write p ∉ [FsOp.mkdir "AppIcon.icon", FsOp.mkdir "AppIcon.icon/Assets"] := by
  intro h
  rcases List.mem_cons.1 h with h | h
  · simp at h
  · rcases List.mem_cons.1 h with h | h
    · simp at h
    · simp at h

/-- No element of the bundle trace's tail (the three writes) is a
remove. -/
lemma bundle_tail_no_remove (q : String) :
    FsOp.remove q ∉
      [FsOp.write "AppIcon.icon/Assets/icon-light.png",
       FsOp.write "AppIcon.icon/Assets/icon-dark.png",
       FsOp.write "AppIcon.icon/icon.json"] := by
  intro h
  simp at h

/-- `tryFonts` resolves to the first candidate the resolver accepts. -/
lemma tryFonts_eq_of_first (resolve : String → ℤ → Option Font) (fs : ℤ) :
    ∀ (l : List String) (i : ℕ) (p : String) (f : Font),
      l.get? i = some p →
      (∀ j, j < i → ∃ q, l.get? j = some q ∧ resolve q fs = none) →
      resolve p fs = some f →
      tryFonts resolve fs l = some (f, p) := by
  intro l
  induction l with
  | nil =>
    intro i p f hget
    simp at hget
  | cons a rest ih =>
    intro i p f hget hprev hres
    cases i with
    | zero =>
      simp only [List.get?_cons_zero, Option.some.injEq] at hget
      subst hget
      simp [tryFonts, hres]
    | succ i =>
      obtain ⟨q, hq, hqnone⟩ := hprev 0 (Nat.succ_pos _)
      simp only [List.get?_cons_zero, Option.some.injEq] at hq
      subst hq
      simp only [List.get?_cons_succ] at hget
      rw [tryFonts]
      rw [hqnone]
      exact ih i p f hget
        (fun j hj => by
          obtain ⟨q2, hq2, hq2n⟩ := hprev (j + 1) (Nat.succ_lt_succ hj)
          exact ⟨q2, by simpa using hq2, hq2n⟩) hres

/-- `tryFonts` fails when every candidate fails to resolve. -/
lemma tryFonts_eq_none (resolve : String → ℤ → Option Font) (fs : ℤ) :
    ∀ l : List String, (∀ p ∈ l, resolve p fs = none) →
      tryFonts resolve fs l = none := by
  intro l
  induction l with
  | nil => intro _; simp [tryFonts]
  | cons a rest ih =>
    intro h
    rw [tryFonts, h a (List.mem_cons_self _ _)]
    exact ih (fun p hp => h p (List.mem_cons_of_mem _ hp))

/-- The code's inline sign factor `(1 if t >= 0 else -1)` agrees with the
spec's `sign(t)` once multiplied by `|t|^(2/4)`: they differ only at
`t = 0`, where the rpow factor vanishes. -/
lemma code_sign_eq_spec_sign (c s t : ℝ) :
    c + s * |t| ^ ((2 : ℝ) / 4) * (if 0 ≤ t then (1 : ℝ) else -1)
      = c + s * Real.sign t * |t| ^ ((2 : ℝ) / 4) := by
  rcases lt_trichotomy t 0 with h | h | h
  · rw [Real.sign_of_neg h, if_neg (not_le.2 h)]
    ring
  · subst h
    rw [Real.sign_zero, abs_zero, Real.zero_rpow (by norm_num : ((2 : ℝ) / 4) ≠ 0)]
    ring
  · rw [Real.sign_of_pos h, if_pos h.le]
    ring

/-! ## Claim theorems -/

/-- C1, counterexample: at canvas size `S = 1` (which satisfies `S > 0`)
the centre pixel `(S // 2, S // 2) = (0, 0)` *is* the corner pixel
`(0, 0)`, so it cannot be both fully opaque (255) and fully transparent
(0); the claim as stated is false at `S = 1`. -/
theorem C1_counterexample :
    ¬ ((create_squircle_mask 1).pixel (1 / 2) (1 / 2) = 255 ∧
       (create_squircle_mask 1).pixel 0 0 = 0) := by
  rintro ⟨h1, h2⟩
  norm_num at h1
  rw [h1] at h2
  exact absurd h2 (by norm_num)

/-- C1 (amended: for every canvas size `S ≥ 2` rather than `S > 0`):
`create_squircle_mask(S)` returns a mask of exactly `S × S` pixels whose
centre pixel `(S // 2, S // 2)` has opacity 255 and whose corner pixel
`(0, 0)` has opacity 0, with shape exponent `n = 4`. -/
theorem C1_mask_dimensions_center_corner (S : ℕ) (hS : 2 ≤ S) :
    (create_squircle_mask S).width = S ∧ (create_squircle_mask S).height = S ∧
    (create_squircle_mask S).pixel (S / 2) (S / 2) = 255 ∧
    (create_squircle_mask S).pixel 0 0 = 0 :=
  ⟨rfl, rfl, mask_center_pixel S, mask_corner_pixel S hS⟩

/-- C1 witness: the amended statement instantiated at `S = 4`. -/
theorem C1_mask_dimensions_center_corner_witness :
    2 ≤ 4 ∧
    ((create_squircle_mask 4).width = 4 ∧ (create_squircle_mask 4).height = 4 ∧
     (create_squircle_mask 4).pixel (4 / 2) (4 / 2) = 255 ∧
     (create_squircle_mask 4).pixel 0 0 = 0) :=
  ⟨by norm_num, C1_mask_dimensions_center_corner 4 (by norm_num)⟩

/-- C3: for each of the 360 equally spaced angles `θ = 2·π·i/360`, the
mask generator's vertex is exactly the spec's boundary point
`center + scale·sign(cos θ)·|cos θ|^(2/n)` (and the `sin` analogue) with
`n = 4`, `center = S // 2` and `scale = 0.9·(S // 2)`; and the resulting
filled polygon yields a mask with opacity 255 exactly on the pixels
inside it and 0 exactly on the pixels outside it. -/
theorem C3_boundary_formula_and_fill (S i x y : ℕ) (hi : i < 360) :
    squircleVertex S i =
      specBoundaryPoint (halfR S) (halfR S * 0.9) 4 (2 * Real.pi * (i : ℝ) / 360) ∧
    ((create_squircle_mask S).pixel x y = 255 ↔
      ((x : ℝ), (y : ℝ)) ∈ convexHull ℝ (squircleVertexSet S)) ∧
    ((create_squircle_mask S).pixel x y = 0 ↔
      ((x : ℝ), (y : ℝ)) ∉ convexHull ℝ (squircleVertexSet S)) := by
  refine ⟨?_, ?_, ?_⟩
  · unfold squircleVertex specBoundaryPoint
    simp only [Prod.mk.injEq]
    exact ⟨code_sign_eq_spec_sign _ _ _, code_sign_eq_spec_sign _ _ _⟩
  · by_cases h : ((x : ℝ), (y : ℝ)) ∈ convexHull ℝ (squircleVertexSet S)
    · simp [create_squircle_mask, create_squircle_maskWith, h]
    · simp [create_squircle_mask, create_squircle_maskWith, h]
  · by_cases h : ((x : ℝ), (y : ℝ)) ∈ convexHull ℝ (squircleVertexSet S)
    · simp [create_squircle_mask, create_squircle_maskWith, h]
    · simp [create_squircle_mask, create_squircle_maskWith, h]

/-- C3 witness: instantiated at `S = 5`, `i = 7`, pixel `(2, 2)`. -/
theorem C3_boundary_formula_and_fill_witness :
    7 < 360 ∧
    (squircleVertex 5 7 =
      specBoundaryPoint (halfR 5) (halfR 5 * 0.9) 4 (2 * Real.pi * ((7 : ℕ) : ℝ) / 360) ∧
    ((create_squircle_mask 5).pixel 2 2 = 255 ↔
      (((2 : ℕ) : ℝ), ((2 : ℕ) : ℝ)) ∈ convexHull ℝ (squircleVertexSet 5)) ∧
    ((create_squircle_mask 5).pixel 2 2 = 0 ↔
      (((2 : ℕ) : ℝ), ((2 : ℕ) : ℝ)) ∉ convexHull ℝ (squircleVertexSet 5))) :=
  ⟨by norm_num, C3_boundary_formula_and_fill 5 7 2 2 (by norm_num)⟩

/-- C10: `radius_factor` has no effect on the produced mask — the derived
`radius` value is computed and never used, so any two factors give
identical masks. -/
theorem C10_radius_factor_unused (S : ℕ) (hS : 0 < S) (r1 r2 : ℝ) :
    create_squircle_maskWith S r1 = create_squircle_maskWith S r2 := rfl

/-- C10 witness: instantiated at `S = 3` with factors `0.22` and `0.9`. -/
theorem C10_radius_factor_unused_witness :
    0 < 3 ∧ create_squircle_maskWith 3 (22 / 100) = create_squircle_maskWith 3 (9 / 10) :=
  ⟨by norm_num, C10_radius_factor_unused 3 (by norm_num) (22 / 100) (9 / 10)⟩

/-- C6: in the compositor's background-fill step, every pixel whose
squircle-mask opacity is strictly greater than 128 is set to the
background color with alpha 255, and every other pixel is left fully
transparent; and `create_icon` composes exactly this background beneath
the text, so any pixel the text does not cover still carries the
background-fill value (the fill happens before any text is drawn). -/
theorem C6_background_threshold (size : ℕ) (bg : ℕ × ℕ × ℕ) (dark : Bool)
    (resolve : String → ℤ → Option Font) (x y : ℕ) :
    (128 < (create_squircle_mask size).pixel x y →
      backgroundFill size bg x y = { r := bg.1, g := bg.2.1, b := bg.2.2, a := 255 }) ∧
    (¬ 128 < (create_squircle_mask size).pixel x y →
      backgroundFill size bg x y = { r := 0, g := 0, b := 0, a := 0 }) ∧
    (((selectFont resolve ⌊(size : ℝ) * 0.45⌋).1).covers "JT"
        ((x : ℤ) - (textLayout (selectFont resolve ⌊(size : ℝ) * 0.45⌋).1 size).1)
        ((y : ℤ) - (textLayout (selectFont resolve ⌊(size : ℝ) * 0.45⌋).1 size).2) = false →
      (create_icon size dark resolve).1.pixel x y =
        backgroundFill size (if dark then black else orange) x y) := by
  refine ⟨?_, ?_, ?_⟩
  · intro h
    unfold backgroundFill
    rw [if_pos h]
  · intro h
    unfold backgroundFill
    rw [if_neg h]
  · intro h
    simp only [create_icon]
    rw [if_neg (by rw [h]; exact Bool.false_ne_true)]

/-- C6 witness: at `size = 4`, centre pixel `(2, 2)` (mask opacity 255),
with a resolver that never resolves (so the default font, which covers no
pixel, is selected). -/
theorem C6_background_threshold_witness :
    backgroundFill 4 orange 2 2 = { r := 255, g := 149, b := 0, a := 255 } ∧
    (create_icon 4 true (fun _ _ => none)).1.pixel 2 2 = backgroundFill 4 black 2 2 := by
  constructor
  · apply (C6_background_threshold 4 orange true (fun _ _ => none) 2 2).1
    rw [show (create_squircle_mask 4).pixel 2 2 = 255 from mask_center_pixel 4]
    norm_num
  · exact (C6_background_threshold 4 black true (fun _ _ => none) 2 2).2.2 rfl

/-- C7: the compositor is deterministic — two invocations of
`create_icon` with equal sizes, equal `dark_mode` flags and the same font
resolver produce byte-identical images. -/
theorem C7_deterministic (s1 s2 : ℕ) (d1 d2 : Bool)
    (r1 r2 : String → ℤ → Option Font)
    (hs : s1 = s2) (hd : d1 = d2) (hr : r1 = r2) :
    (create_icon s1 d1 r1).1 = (create_icon s2 d2 r2).1 := by
  subst hs
  subst hd
  subst hr
  rfl

/-- C7 witness: two identical invocations at size 3, dark mode, with the
never-resolving font environment. -/
theorem C7_deterministic_witness :
    (create_icon 3 true (fun _ _ => none)).1 = (create_icon 3 true (fun _ _ => none)).1 :=
  C7_deterministic 3 3 true true (fun _ _ => none) (fun _ _ => none) rfl rfl rfl

/-- C8: font selection tries the ordered candidate list and uses the
first path that resolves (logging which); if no candidate resolves, the
built-in default font is used and the warning is printed; and in either
case `create_icon` still returns a `size × size` icon image — font
failure is non-fatal. -/
theorem C8_font_fallback (resolve : String → ℤ → Option Font) (fs : ℤ) :
    (∀ i p f, font_paths.get? i = some p →
        (∀ j, j < i → ∃ q, font_paths.get? j = some q ∧ resolve q fs = none) →
        resolve p fs = some f →
        selectFont resolve fs = (f, ["Using font: " ++ p])) ∧
    ((∀ p ∈ font_paths, resolve p fs = none) →
        selectFont resolve fs =
          (load_default, ["Warning: Bradley Hand font not found, using default"])) ∧
    (∀ size dark,
        (create_icon size dark resolve).1.width = size ∧
        (create_icon size dark resolve).1.height = size) := by
  refine ⟨?_, ?_, ?_⟩
  · intro i p f hget hprev hres
    unfold selectFont
    rw [tryFonts_eq_of_first resolve fs font_paths i p f hget hprev hres]
  · intro hall
    unfold selectFont
    rw [tryFonts_eq_none resolve fs font_paths hall]
  · intro size dark
    exact ⟨rfl, rfl⟩

/-- C8 witness: with a resolver for which every candidate fails, the
selected font is the built-in default and the warning is logged. -/
theorem C8_font_fallback_witness :
    selectFont (fun _ _ => none) 0 =
      (load_default, ["Warning: Bradley Hand font not found, using default"]) :=
  (C8_font_fallback (fun _ _ => none) 0).2.1 (fun p _ => rfl)

/-- C2: the bundle run writes exactly two image files, and the
descriptor's single group has exactly two layers whose resolved
default/dark opacities are mutually exclusive: the dark layer is 0 by
default and 1 under the dark appearance, the light layer is 1 by default
(implicitly) and 0 under the dark appearance. -/
theorem C2_bundle_two_images_exclusive_layers :
    bundlePngWrites.length = 2 ∧
    icon_json.groups.map
        (fun g => g.layers.map
          (fun l => (effectiveOpacity l none, effectiveOpacity l (some "dark"))))
      = [[(0, 1), (1, 0)]] := by
  decide

/-- C4: the legacy manifest has exactly one entry per `ICON_SIZES` row
(in order, with the row's size and scale and the conventional filename),
every entry's idiom is `mac`, every filename referenced in the manifest
is written during the run, and every icon file generated in the run is
referenced by exactly one manifest entry. -/
theorem C4_manifest_matches_files (existing : List String) :
    legacyManifest.length = ICON_SIZES.length ∧
    (∀ i, i < ICON_SIZES.length →
      legacyManifest.get? i = (ICON_SIZES.get? i).map (fun t =>
        { filename := "AppIcon-" ++ t.1 ++ "@" ++ t.2.1 ++ ".png"
          idiom := "mac"
          scale := t.2.1
          size := t.1 })) ∧
    (∀ e ∈ legacyManifest, e.idiom = "mac") ∧
    (∀ e ∈ legacyManifest, e.filename ∈ writesOf (legacyOps existing)) ∧
    (∀ p ∈ legacyFilenames,
      (legacyManifest.filter (fun e => e.filename == p)).length = 1) := by
  refine ⟨rfl, by decide, by decide, ?_, by decide⟩
  intro e he
  rw [writesOf_legacyOps]
  have h : ∀ e2 ∈ legacyManifest, e2.filename ∈ legacyWriteNames := by decide
  exact h e he

/-- C4 witness: the last icon file is generated and referenced exactly
once. -/
theorem C4_manifest_matches_files_witness :
    "AppIcon-512x512@2x.png" ∈ legacyFilenames ∧
    (legacyManifest.filter
      (fun e => e.filename == "AppIcon-512x512@2x.png")).length = 1 :=
  ⟨by decide, (C4_manifest_matches_files []).2.2.2.2 "AppIcon-512x512@2x.png" (by decide)⟩

/-- C5: the legacy trace deletes every pre-existing `AppIcon-*.png` entry
and all of its removals precede all of its writes; consequently, after a
re-run, a pre-existing matching file is present iff it is one of the ten
freshly generated icon files (no stale icon survives), and all freshly
generated files are present. -/
theorem C5_remove_before_write (initial : Finset String) :
    (∃ A B : List FsOp,
      legacyOps (initial.sort (· ≤ ·)) = A ++ B ∧
      (∀ p, FsOp.write p ∉ A) ∧ (∀ q, FsOp.remove q ∉ B) ∧
      (∀ f, f ∈ initial → matchesIconGlob f = true → FsOp.remove f ∈ A)) ∧
    (∀ f, f ∈ initial → matchesIconGlob f = true →
      (f ∈ legacyRun initial ↔ f ∈ legacyFilenames)) ∧
    (∀ f, f ∈ legacyFilenames → f ∈ legacyRun initial) := by
  refine ⟨?_, ?_, ?_⟩
  · refine ⟨FsOp.mkdir "." ::
        ((initial.sort (· ≤ ·)).filter matchesIconGlob).map FsOp.remove,
      legacyWriteNames.map FsOp.write, rfl,
      (fun p => legacy_head_no_write (initial.sort (· ≤ ·)) p),
      (fun q => map_write_no_remove legacyWriteNames q), ?_⟩
    intro f hf hm
    apply List.mem_cons_of_mem
    exact List.mem_map.2
      ⟨f, List.mem_filter.2 ⟨(Finset.mem_sort _).2 hf, hm⟩, rfl⟩
  · intro f hf hm
    rw [mem_legacyRun]
    constructor
    · rintro (⟨_, hnot⟩ | hw)
      · exact absurd hm hnot
      · rcases List.mem_append.1 hw with h | h
        · exact h
        · have hfj : f = "Contents.json" := by simpa using h
          rw [hfj] at hm
          exact absurd hm (by decide)
    · intro h
      right
      exact List.mem_append.2 (Or.inl h)
  · intro f hf
    rw [mem_legacyRun]
    right
    exact List.mem_append.2 (Or.inl hf)

/-- C5 witness: a stale icon file from a prior run is gone after the
re-run (it is not one of the generated names). -/
theorem C5_remove_before_write_witness :
    matchesIconGlob "AppIcon-stale.png" = true ∧
    ("AppIcon-stale.png" ∈ legacyRun {"AppIcon-stale.png"} ↔
      "AppIcon-stale.png" ∈ legacyFilenames) :=
  ⟨by decide, (C5_remove_before_write {"AppIcon-stale.png"}).2.1 "AppIcon-stale.png"
    (Finset.mem_singleton_self _) (by decide)⟩

/-- C9: if any filesystem operation of the legacy run or of the bundle
run fails, the run aborts at that operation (everything before it
succeeded, nothing after it was attempted — the resulting state is the
fold of the strict prefix), and every file written before the failure is
still on disk in the resulting state: no retry, no rollback. -/
theorem C9_failure_aborts_no_rollback (existing : List String)
    (init : Finset String) (fail : FsOp → Bool) (op : FsOp) (sf : Finset String) :
    (runOps fail (legacyOps existing) init = Except.error (op, sf) →
      fail op = true ∧ ∃ k, (legacyOps existing).get? k = some op ∧
        (∀ j, j < k → ∃ o, (legacyOps existing).get? j = some o ∧ fail o = false) ∧
        sf = runFold ((legacyOps existing).take k) init ∧
        (∀ p, FsOp.write p ∈ (legacyOps existing).take k → p ∈ sf)) ∧
    (runOps fail bundleOps init = Except.error (op, sf) →
      fail op = true ∧ ∃ k, bundleOps.get? k = some op ∧
        (∀ j, j < k → ∃ o, bundleOps.get? j = some o ∧ fail o = false) ∧
        sf = runFold (bundleOps.take k) init ∧
        (∀ p, FsOp.write p ∈ bundleOps.take k → p ∈ sf)) := by
  constructor
  · intro h
    obtain ⟨hop, k, hk, hprev, hsf⟩ :=
      runOps_error_spec fail (legacyOps existing) init op sf h
    refine ⟨hop, k, hk, hprev, hsf, ?_⟩
    intro p hp
    rw [hsf]
    exact writes_take_persist _ _
      (fun p2 => legacy_head_no_write existing p2)
      (fun q => map_write_no_remove legacyWriteNames q) k init p hp
  · intro h
    obtain ⟨hop, k, hk, hprev, hsf⟩ :=
      runOps_error_spec fail bundleOps init op sf h
    refine ⟨hop, k, hk, hprev, hsf, ?_⟩
    intro p hp
    rw [hsf]
    exact writes_take_persist _ _
      (fun p2 => bundle_head_no_write p2)
      (fun q => bundle_tail_no_remove q) k init p hp

/-- C9 witness: with an oracle that fails every operation, the legacy run
aborts at its very first operation with the initial (empty) state
preserved. -/
theorem C9_failure_aborts_no_rollback_witness :
    (fun _ : FsOp => true) (FsOp.mkdir ".") = true ∧
    ∃ k, (legacyOps []).get? k = some (FsOp.mkdir ".") ∧
      (∀ j, j < k → ∃ o, (legacyOps []).get? j = some o ∧
        (fun _ : FsOp => true) o = false) ∧
      (∅ : Finset String) = runFold ((legacyOps []).take k) ∅ ∧
      (∀ p, FsOp.write p ∈ (legacyOps []).take k → p ∈ (∅ : Finset String)) :=
  (C9_failure_aborts_no_rollback [] ∅ (fun _ => true) (FsOp.mkdir ".") ∅).1 rfl

end TavernIcon
